import Mathlib

/-!
Shallow embedding of `admin/admin.go` (package `admin` of kafka-pixy).

The package performs administrative queries against a Kafka cluster and a
ZooKeeper tree.  External collaborators (sarama client, brokers, the group
coordinator, the ZooKeeper connection) are modelled as records of response
functions; the package's own control flow is translated statement by
statement into total Lean functions.

Modelling conventions:
* Go `int32` / `int64` values are `Int`; the single overflow-relevant site,
  the `int32(partition)` conversion in `GetTopicConsumers`, is modelled
  explicitly by `toInt32`.
* A Go function returning `(T, error)` becomes `Except GoError T` when the
  two results are mutually exclusive; `GetGroupOffsets` is modelled as the
  raw pair `Option (List PartitionOffset) × Option GoError` because the code
  can return both results nil (see `errorsWrapf`).
* `github.com/pkg/errors` semantics: `errors.Wrapf(err, ...)` returns nil
  when `err` is nil; on a non-nil error it layers a message on top of the
  cause, which `GoError.wrap` models.
* `type ErrInvalidParam error` declares a defined type whose underlying
  type is the `error` interface.  Consequently the conversion
  `ErrInvalidParam(err)` is an interface-to-interface conversion returning
  the same error value with no runtime tag (`toErrInvalidParam` is the
  identity), and the type assertion `_, ok := err.(ErrInvalidParam)`
  asserts to an interface type, succeeding for every non-nil error
  (`errIsErrInvalidParam` is constantly true).
* The goroutine-per-broker fan-out of `GetGroupOffsets` is sequentialised:
  every broker task runs to completion (producing either its disjoint set of
  index writes or an error), tasks are joined, and the first reported error,
  if any, aborts the call.  The order in which Go ranges over the
  `brokerToPartitions` map and the order in which tasks complete are both
  unspecified, so the model takes the processing order as a parameter
  `iter`; theorems quantify over every `iter` that permutes the buckets.
* Go map iteration (`res.Errors[topic]` in `SetGroupOffsets`) is modelled by
  an association list traversed in list order, one fixed representative of
  the unspecified Go ordering.
* `sort.Sort(int32Slice(...))` is modelled by `List.insertionSort`; both
  produce a non-decreasing permutation of the input, and on `Int` values the
  result is unique, so the choice of algorithm is immaterial.
-/

namespace KafkaPixyAdmin

/-- sarama constant `ErrNoError`: Kafka per-item success code. -/
def ErrNoError : Int := 0

/-- sarama constant `OffsetNewest` (-1). -/
def OffsetNewest : Int := -1

/-- sarama constant `OffsetOldest` (-2). -/
def OffsetOldest : Int := -2

/-- sarama constant `ReceiveTime` (-1), the commit timestamp policy used by `SetGroupOffsets`. -/
def ReceiveTime : Int := -1

/-- sarama constant `GroupGenerationUndefined` (-1). -/
def GroupGenerationUndefined : Int := -1

/-- Constant `ProtocolVer1 = 1` from admin.go. -/
def ProtocolVer1 : Int := 1

/-- Errors reported by the ZooKeeper client: `zk.ErrNoNode` or anything else. -/
inductive ZkError where
  | noNode : ZkError
  | other : String → ZkError
deriving DecidableEq, Repr

/-- Errors flowing through the admin package, identified by the dynamic
value an `error` interface holds at runtime.  `wrap msg e` models
`errors.Wrapf(e, msg...)` on a non-nil `e`; `errorf` models
`errors.Errorf`/`errors.New`; `kerror` carries a Kafka per-item error
code; `zk` injects a ZooKeeper client error.  The `ErrInvalidParam`
conversion adds no constructor because it leaves no runtime tag (see
`toErrInvalidParam`). -/
inductive GoError where
  | errorf : String → GoError
  | kerror : Int → GoError
  | zk : ZkError → GoError
  | wrap : String → GoError → GoError
deriving DecidableEq, Repr

/-- Models `errors.Wrapf` of github.com/pkg/errors applied to a possibly-nil
error: wrapping nil yields nil. -/
def errorsWrapf (e : Option GoError) (msg : String) : Option GoError :=
  match e with
  | none => none
  | some err => some (GoError.wrap msg err)

/-- Models the Go conversion `ErrInvalidParam(err)` (admin.go line 211).
`ErrInvalidParam` is a defined type whose underlying type is the `error`
interface, so this is an interface-to-interface conversion: the resulting
value is the same error, carrying no runtime mark of the conversion. -/
def toErrInvalidParam (e : GoError) : GoError := e

/-- Models the Go type assertion `_, ok := err.(ErrInvalidParam)`
(admin.go line 256) on a non-nil `err`.  `ErrInvalidParam` is an interface
type with the method set of `error`, so the assertion succeeds for every
non-nil error, whatever produced it. -/
def errIsErrInvalidParam (_ : GoError) : Bool := true

/-- Struct `PartitionOffset` from admin.go. -/
structure PartitionOffset where
  Partition : Int
  Begin : Int
  End : Int
  Offset : Int
  Metadata : String
deriving DecidableEq, Repr

/-- Zero value of `PartitionOffset`, as produced by Go's `make([]PartitionOffset, n)`. -/
def zeroPO : PartitionOffset :=
  { Partition := 0, Begin := 0, End := 0, Offset := 0, Metadata := "" }

/-- Struct `indexedPartition` from admin.go: original index plus partition id. -/
structure IndexedPartition where
  index : Nat
  partition : Int
deriving DecidableEq, Repr

/-- Request block added by `sarama.OffsetRequest.AddBlock(topic, partition, time, maxOffsets)`. -/
structure OffsetReqBlock where
  topic : String
  partition : Int
  time : Int
  maxOffsets : Int
deriving DecidableEq, Repr

/-- Block of a `sarama.OffsetResponse`. -/
structure OffsetResponseBlock where
  Err : Int
  Offsets : List Int
deriving DecidableEq, Repr

/-- Response of `Broker.GetAvailableOffsets`, exposed through `GetBlock`. -/
structure OffsetResponse where
  GetBlock : String → Int → Option OffsetResponseBlock

/-- A broker, reduced to the one method the package calls on it. -/
structure BrokerModel where
  GetAvailableOffsets : List OffsetReqBlock → Except GoError OffsetResponse

/-- Block of a `sarama.OffsetFetchResponse` (the `Err` field is never read by admin.go). -/
structure OffsetFetchResponseBlock where
  Offset : Int
  Metadata : String
  Err : Int
deriving DecidableEq, Repr

/-- Response of `Coordinator.FetchOffset`, exposed through `GetBlock`. -/
structure OffsetFetchResponse where
  GetBlock : String → Int → Option OffsetFetchResponseBlock

/-- Request `sarama.OffsetFetchRequest`; `AddPartition` accumulates into `partitions`. -/
structure OffsetFetchRequest where
  ConsumerGroup : String
  Version : Int
  partitions : List (String × Int)
deriving DecidableEq, Repr

/-- Block added by `sarama.OffsetCommitRequest.AddBlock(topic, partition, offset, timestamp, metadata)`. -/
structure CommitBlock where
  topic : String
  partition : Int
  offset : Int
  timestamp : Int
  metadata : String
deriving DecidableEq, Repr

/-- Request `sarama.OffsetCommitRequest`. -/
structure OffsetCommitRequest where
  Version : Int
  ConsumerGroup : String
  ConsumerGroupGeneration : Int
  blocks : List CommitBlock
deriving DecidableEq, Repr

/-- Response of `Coordinator.CommitOffset`: `Errors` is the
`map[string]map[int32]KError` field, modelled as nested association lists. -/
structure OffsetCommitResponse where
  Errors : List (String × List (Int × Int))
deriving DecidableEq, Repr

/-- The group coordinator broker, reduced to the two methods the package calls. -/
structure CoordinatorModel where
  FetchOffset : OffsetFetchRequest → Except GoError OffsetFetchResponse
  CommitOffset : OffsetCommitRequest → Except GoError OffsetCommitResponse

/-- The sarama client as used by admin.go: partition discovery, leader
resolution (brokers are identified by their id), broker lookup and
coordinator resolution. -/
structure KafkaClient where
  Partitions : String → Except GoError (List Int)
  Leader : String → Int → Except GoError Int
  broker : Int → BrokerModel
  Coordinator : String → Except GoError CoordinatorModel

/-- The ZooKeeper connection as used by admin.go. -/
structure ZkConn where
  Children : String → Except ZkError (List String)
  Get : String → Except ZkError String

/-- Pairs every element with its position, starting at `i`:
models Go's `for i, p := range partitions`. -/
def withIndexFrom (i : Nat) : List Int → List (Nat × Int)
  | [] => []
  | p :: rest => (i, p) :: withIndexFrom (i + 1) rest

/-- Index/value pairs of a list, positions starting at 0. -/
def withIndex (l : List Int) : List (Nat × Int) := withIndexFrom 0 l

/-- One bucket of the `brokerToPartitions` map: broker id with the indexed
partitions it leads, in discovery order. -/
abbrev Bucket := Int × List IndexedPartition

/-- Models `brokerToPartitions[broker] = append(brokerToPartitions[broker], ...)`:
append to the existing bucket of this broker, or open a new bucket. -/
def bucketAdd : List Bucket → Int → IndexedPartition → List Bucket
  | [], b, xp => [(b, [xp])]
  | (b', l) :: rest, b, xp =>
    if b' = b then (b', l ++ [xp]) :: rest
    else (b', l) :: bucketAdd rest b xp

/-- Models the leader-resolution loop of `GetGroupOffsets` (admin.go lines
83-90): group the indexed partitions by leader broker, failing on the first
`Leader` error. -/
def brokerToPartitions (clt : KafkaClient) (topic : String) :
    List (Nat × Int) → List Bucket → Except GoError (List Bucket)
  | [], acc => .ok acc
  | (i, p) :: rest, acc =>
    match clt.Leader topic p with
    | .error e =>
        .error (.wrap ("failed to get partition leader, partition=" ++ toString p) e)
    | .ok b => brokerToPartitions clt topic rest (bucketAdd acc b ⟨i, p⟩)

/-- Function `getOffsetResult` from admin.go. -/
def getOffsetResult (res : OffsetResponse) (topic : String) (partition : Int) :
    Except GoError Int :=
  match res.GetBlock topic partition with
  | none => .error (.errorf (topic ++ "/" ++ toString partition ++ ", no data"))
  | some block =>
    if block.Err ≠ ErrNoError then
      .error (.wrap (topic ++ "/" ++ toString partition ++ ", fetch error") (.kerror block.Err))
    else
      match block.Offsets with
      | [] => .error (.errorf (topic ++ "/" ++ toString partition ++ ", no offset"))
      | o :: _ => .ok o

/-- One write a broker task performs into the shared result array:
`offsets[index].Partition/Begin/End = partition/begin/end`. -/
structure RangeWrite where
  index : Nat
  partition : Int
  Begin : Int
  End : Int
deriving DecidableEq, Repr

/-- Loop body of one broker task (admin.go lines 117-131): for every indexed
partition of the bucket extract the oldest and newest offset and record the
write.  A task that fails reports its error and performs no further writes;
the writes it did perform are discarded with the whole array, so collecting
the writes only on full success is equivalent. -/
def collectRangeWrites (resOldest resNewest : OffsetResponse) (topic : String)
    (brokerId : Int) : List IndexedPartition → Except GoError (List RangeWrite)
  | [] => .ok []
  | xp :: rest =>
    match getOffsetResult resOldest topic xp.partition with
    | .error e =>
        .error (.wrap ("failed to fetch oldest offset, broker=" ++ toString brokerId) e)
    | .ok b =>
      match getOffsetResult resNewest topic xp.partition with
      | .error e =>
          .error (.wrap ("failed to fetch newest offset, broker=" ++ toString brokerId) e)
      | .ok e =>
        match collectRangeWrites resOldest resNewest topic brokerId rest with
        | .error err => .error err
        | .ok ws => .ok (⟨xp.index, xp.partition, b, e⟩ :: ws)

/-- One broker task (admin.go lines 99-132): build the two batched requests
for the bucket's partitions, issue them, and extract the per-partition
offset ranges. -/
def runBrokerTask (clt : KafkaClient) (topic : String) (brokerId : Int)
    (bucket : List IndexedPartition) : Except GoError (List RangeWrite) :=
  let broker := clt.broker brokerId
  let reqNewest := bucket.map (fun xp => OffsetReqBlock.mk topic xp.partition OffsetNewest 1)
  let reqOldest := bucket.map (fun xp => OffsetReqBlock.mk topic xp.partition OffsetOldest 1)
  match broker.GetAvailableOffsets reqOldest with
  | .error e =>
      .error (.wrap ("failed to fetch oldest offset, broker=" ++ toString brokerId) e)
  | .ok resOldest =>
    match broker.GetAvailableOffsets reqNewest with
    | .error e =>
        .error (.wrap ("failed to fetch newest offset, broker=" ++ toString brokerId) e)
    | .ok resNewest => collectRangeWrites resOldest resNewest topic brokerId bucket

/-- First error pulled from the error channel after the join (`<-errorsCh`). -/
def firstErr : List (Except GoError (List RangeWrite)) → Option GoError
  | [] => none
  | .error e :: _ => some e
  | .ok _ :: rest => firstErr rest

/-- Writes of every successful task, joined. -/
def okJoin : List (Except GoError (List RangeWrite)) → List RangeWrite
  | [] => []
  | .error _ :: rest => okJoin rest
  | .ok ws :: rest => ws ++ okJoin rest

/-- Apply one write to the result array. -/
def applyWrite (arr : List PartitionOffset) (w : RangeWrite) : List PartitionOffset :=
  arr.set w.index
    { arr.getD w.index zeroPO with Partition := w.partition, Begin := w.Begin, End := w.End }

/-- Apply all recorded writes to the result array; the array content does not
depend on the order because distinct tasks write distinct indices. -/
def applyRangeWrites (arr : List PartitionOffset) (ws : List RangeWrite) : List PartitionOffset :=
  ws.foldl applyWrite arr

/-- The offset-range half of `GetGroupOffsets` (admin.go lines 77-140,
spec component OffsetRangeFetcher): discovery-ordered grouping by leader,
per-broker fan-out, join, first error wins, else the positionally written
result array.  `iter` is the unspecified order in which Go ranges over the
broker map and in which tasks complete. -/
def rangePhase (iter : List Bucket → List Bucket) (clt : KafkaClient)
    (topic : String) (partitions : List Int) : Except GoError (List PartitionOffset) :=
  match brokerToPartitions clt topic (withIndex partitions) [] with
  | .error e => .error e
  | .ok buckets =>
    let results := (iter buckets).map (fun b => runBrokerTask clt topic b.1 b.2)
    match firstErr results with
    | some e => .error e
    | none => .ok (applyRangeWrites (List.replicate partitions.length zeroPO) (okJoin results))

/-- Loop of admin.go lines 155-162: for every discovered partition, in
order, copy the committed offset and metadata out of the fetch response.
A missing block executes `return nil, errors.Wrapf(nil, ...)`, and since
`errors.Wrapf` returns nil for a nil cause this produces `(nil, nil)`. -/
def fillCommitted (res : OffsetFetchResponse) (topic : String) :
    List (Nat × Int) → List PartitionOffset →
    Option (List PartitionOffset) × Option GoError
  | [], arr => (some arr, none)
  | (i, p) :: rest, arr =>
    match res.GetBlock topic p with
    | none => (none, errorsWrapf none ("offset block is missing, partition=" ++ toString p))
    | some block =>
      fillCommitted res topic rest
        (arr.set i { arr.getD i zeroPO with Offset := block.Offset, Metadata := block.Metadata })

/-- The committed-offset half of `GetGroupOffsets` (admin.go lines 142-162,
spec component GroupOffsetCoordinatorClient Contract A). -/
def committedPhase (clt : KafkaClient) (group topic : String)
    (partitions : List Int) (offsets : List PartitionOffset) :
    Option (List PartitionOffset) × Option GoError :=
  match clt.Coordinator group with
  | .error e => (none, some (.wrap "failed to get coordinator" e))
  | .ok coordinator =>
    match coordinator.FetchOffset
        { ConsumerGroup := group, Version := ProtocolVer1,
          partitions := partitions.map (fun p => (topic, p)) } with
    | .error e => (none, some (.wrap "failed to fetch offsets" e))
    | .ok res => fillCommitted res topic (withIndex partitions) offsets

/-- Method `T.GetGroupOffsets` from admin.go, as the Go result pair
(result slice, error).  The lazy client initialisation is outside the model:
the client is a parameter. -/
def GetGroupOffsets (iter : List Bucket → List Bucket) (clt : KafkaClient)
    (group topic : String) : Option (List PartitionOffset) × Option GoError :=
  match clt.Partitions topic with
  | .error e => (none, some (.wrap "failed to get topic partitions" e))
  | .ok partitions =>
    match rangePhase iter clt topic partitions with
    | .error e => (none, some e)
    | .ok offsets => committedPhase clt group topic partitions offsets

/-- Commit request built by `SetGroupOffsets` (admin.go lines 179-186). -/
def buildCommitRequest (group topic : String) (offsets : List PartitionOffset) :
    OffsetCommitRequest :=
  { Version := ProtocolVer1, ConsumerGroup := group,
    ConsumerGroupGeneration := GroupGenerationUndefined,
    blocks := offsets.map
      (fun po => CommitBlock.mk topic po.Partition po.Offset ReceiveTime po.Metadata) }

/-- Go map indexing `res.Errors[topic]`: a missing key yields the empty map. -/
def lookupErrors (errors : List (String × List (Int × Int))) (topic : String) :
    List (Int × Int) :=
  match errors.find? (fun kv => kv.1 = topic) with
  | none => []
  | some kv => kv.2

/-- Loop of admin.go lines 191-195: scan the per-partition commit error codes
and abort on the first non-success code. -/
def firstNonZero : List (Int × Int) → Option GoError
  | [] => none
  | (p, e) :: rest =>
    if e ≠ ErrNoError then
      some (.wrap ("failed to commit offset, partition=" ++ toString p) (.kerror e))
    else firstNonZero rest

/-- Method `T.SetGroupOffsets` from admin.go. -/
def SetGroupOffsets (clt : KafkaClient) (group topic : String)
    (offsets : List PartitionOffset) : Option GoError :=
  match clt.Coordinator group with
  | .error e => some (.wrap "failed to get coordinator" e)
  | .ok coordinator =>
    match coordinator.CommitOffset (buildCommitRequest group topic offsets) with
    | .error e => some (.wrap "failed to commit offsets" e)
    | .ok res => firstNonZero (lookupErrors res.Errors topic)

/-- Models `strconv.Atoi` digit accumulation. -/
def parseDigitsAux : List Char → Nat → Option Nat
  | [], acc => some acc
  | c :: cs, acc =>
    if c.isDigit then parseDigitsAux cs (acc * 10 + (c.toNat - 48)) else none

/-- Models `strconv.Atoi`: optional sign, a non-empty run of decimal digits,
value within the 64-bit signed range; anything else is an error (on a range
error Go returns a clamped value together with a non-nil error, and the
caller only looks at the error). -/
def strconvAtoi (s : String) : Except GoError Int :=
  let cs := s.data
  let signRest : Int × List Char :=
    match cs with
    | '+' :: r => (1, r)
    | '-' :: r => (-1, r)
    | r => (1, r)
  match signRest.2 with
  | [] => .error (.errorf ("strconv.Atoi: parsing " ++ s ++ ": invalid syntax"))
  | _ :: _ =>
    match parseDigitsAux signRest.2 0 with
    | none => .error (.errorf ("strconv.Atoi: parsing " ++ s ++ ": invalid syntax"))
    | some n =>
      let v : Int := signRest.1 * (n : Int)
      if v < -(2 ^ 63) ∨ 2 ^ 63 - 1 < v then
        .error (.errorf ("strconv.Atoi: parsing " ++ s ++ ": value out of range"))
      else .ok v

/-- Go conversion `int32(n)` on an `int`: two's-complement truncation. -/
def toInt32 (n : Int) : Int := (n + 2 ^ 31) % 2 ^ 32 - 2 ^ 31

/-- Models `consumers[clientID] = append(consumers[clientID], v)` on a Go
map represented as an association list in key-insertion order. -/
def assocAppend (m : List (String × List Int)) (k : String) (v : Int) :
    List (String × List Int) :=
  match m with
  | [] => [(k, [v])]
  | (k', vs) :: rest =>
    if k' = k then (k', vs ++ [v]) :: rest else (k', vs) :: assocAppend rest k v

/-- Loop of admin.go lines 217-229: for every child node parse its name as a
partition id, read the owning client id, and append the partition to that
client's list. -/
def readOwners (zkConn : ZkConn) (basePath : String) :
    List String → List (String × List Int) →
    Except GoError (List (String × List Int))
  | [], consumers => .ok consumers
  | node :: rest, consumers =>
    match strconvAtoi node with
    | .error e => .error (.wrap ("invalid partition id, " ++ node) e)
    | .ok partition =>
      match zkConn.Get (basePath ++ "/" ++ node) with
      | .error e => .error (.wrap "failed to fetch partition owner" (.zk e))
      | .ok clientID =>
        readOwners zkConn basePath rest (assocAppend consumers clientID (toInt32 partition))

/-- Path `%s/consumers/%s/owners/%s` from admin.go line 206. -/
def consumedPartitionsPath (chroot group topic : String) : String :=
  chroot ++ "/consumers/" ++ group ++ "/owners/" ++ topic

/-- Models `sort.Sort(int32Slice(partitions))`: a non-decreasing reordering. -/
def sortInts (l : List Int) : List Int := List.insertionSort (fun a b => a ≤ b) l

/-- Method `T.GetTopicConsumers` from admin.go.  The `cfg.ZooKeeper.Chroot`
field is the `chroot` parameter; the lazy connection initialisation is
outside the model. -/
def GetTopicConsumers (zkConn : ZkConn) (chroot group topic : String) :
    Except GoError (List (String × List Int)) :=
  let path := consumedPartitionsPath chroot group topic
  match zkConn.Children path with
  | .error .noNode =>
      .error (toErrInvalidParam (.errorf "either group or topic is incorrect"))
  | .error e => .error (.wrap "failed to fetch partition owners data" (.zk e))
  | .ok partitionNodes =>
    match readOwners zkConn path partitionNodes [] with
    | .error e => .error e
    | .ok consumers => .ok (consumers.map (fun kv => (kv.1, sortInts kv.2)))

/-- Loop of `GetAllTopicConsumers` (admin.go lines 253-264): scan every
group, skipping a scan whose error passes the `err.(ErrInvalidParam)`
assertion, aborting otherwise, and keeping only non-empty ownership maps.
Because the assertion succeeds for every non-nil error
(`errIsErrInvalidParam`), the abort branch is dead code: every failed scan
is skipped. -/
def scanGroups (zkConn : ZkConn) (chroot topic : String) :
    List String → List (String × List (String × List Int)) →
    Except GoError (List (String × List (String × List Int)))
  | [], consumers => .ok consumers
  | group :: rest, consumers =>
    match GetTopicConsumers zkConn chroot group topic with
    | .error e =>
      if errIsErrInvalidParam e then scanGroups zkConn chroot topic rest consumers
      else .error (.wrap ("failed to fetch group `" ++ group ++ "` data") e)
    | .ok groupConsumers =>
      scanGroups zkConn chroot topic rest
        (if groupConsumers.length > 0 then consumers ++ [(group, groupConsumers)] else consumers)

/-- Method `T.GetAllTopicConsumers` from admin.go. -/
def GetAllTopicConsumers (zkConn : ZkConn) (chroot topic : String) :
    Except GoError (List (String × List (String × List Int))) :=
  match zkConn.Children (chroot ++ "/consumers") with
  | .error e => .error (.wrap "failed to fetch consumer groups" (.zk e))
  | .ok groups => scanGroups zkConn chroot topic groups []

/-- All indexed partitions of a bucket list, joined. -/
def bucketPairs (bs : List Bucket) : List IndexedPartition :=
  (bs.map Prod.snd).flatten

/-- All partition values of an ownership map, joined. -/
def valsOf (m : List (String × List Int)) : List Int :=
  (m.map Prod.snd).flatten

/-- Partition id a child node name contributes to the ownership map, if any:
the parse result truncated to int32. -/
def parsedId (n : String) : Option Int :=
  match strconvAtoi n with
  | .ok v => some (toInt32 v)
  | .error _ => none

/-! Concrete fixtures used by the witness theorems. -/

/-- Coordinator whose fetch response reports offset `10 + p` with metadata
"m" for every partition and whose commits always fully succeed. -/
def coordOk : CoordinatorModel :=
  { FetchOffset := fun _ =>
      .ok { GetBlock := fun _ p => some { Offset := 10 + p, Metadata := "m", Err := 0 } }
    CommitOffset := fun _ => .ok { Errors := [] } }

/-- Broker of the spec §8 scenario leading partitions 0 and 2 of topic
`orders`: oldest = [100, 300], newest = [150, 350]. -/
def brokerB1 : BrokerModel :=
  { GetAvailableOffsets := fun req =>
      if req.any (fun blk => blk.time = OffsetOldest) then
        .ok { GetBlock := fun _ p =>
          if p = 0 then some { Err := 0, Offsets := [100] }
          else if p = 2 then some { Err := 0, Offsets := [300] }
          else none }
      else
        .ok { GetBlock := fun _ p =>
          if p = 0 then some { Err := 0, Offsets := [150] }
          else if p = 2 then some { Err := 0, Offsets := [350] }
          else none } }

/-- Broker of the spec §8 scenario leading partition 1 of topic `orders`:
oldest = [20], newest = [40]. -/
def brokerB2 : BrokerModel :=
  { GetAvailableOffsets := fun req =>
      if req.any (fun blk => blk.time = OffsetOldest) then
        .ok { GetBlock := fun _ p =>
          if p = 1 then some { Err := 0, Offsets := [20] } else none }
      else
        .ok { GetBlock := fun _ p =>
          if p = 1 then some { Err := 0, Offsets := [40] } else none } }

/-- Broker that fails every offset query with a transport error. -/
def brokerDown : BrokerModel :=
  { GetAvailableOffsets := fun _ => .error (.errorf "connection refused") }

/-- Client of the spec §8 scenario: topic `orders` has partitions
[0, 1, 2]; broker 1 leads 0 and 2, broker 2 leads 1. -/
def cltScenario : KafkaClient :=
  { Partitions := fun _ => .ok [0, 1, 2]
    Leader := fun _ p => .ok (if p = 1 then 2 else 1)
    broker := fun bid => if bid = 2 then brokerB2 else brokerB1
    Coordinator := fun _ => .ok coordOk }

/-- Same cluster but broker 2 is down. -/
def cltBroker2Down : KafkaClient :=
  { cltScenario with broker := fun bid => if bid = 2 then brokerDown else brokerB1 }

/-- Client whose coordinator returns a fetch response with no blocks at all. -/
def cltMissingBlock : KafkaClient :=
  { Partitions := fun _ => .ok [0]
    Leader := fun _ _ => .ok 1
    broker := fun _ =>
      { GetAvailableOffsets := fun _ =>
          .ok { GetBlock := fun _ _ => some { Err := 0, Offsets := [7] } } }
    Coordinator := fun _ =>
      .ok { FetchOffset := fun _ => .ok { GetBlock := fun _ _ => none }
            CommitOffset := fun _ => .ok { Errors := [] } } }

/-- Fetch response of the round-trip fixture: exactly the committed pair
(42, "chk1") for partition 1. -/
def fresRoundtrip : OffsetFetchResponse :=
  { GetBlock := fun _ p =>
      if p = 1 then some { Offset := 42, Metadata := "chk1", Err := 0 } else none }

/-- Coordinator of the round-trip fixture. -/
def coordRoundtrip : CoordinatorModel :=
  { FetchOffset := fun _ => .ok fresRoundtrip
    CommitOffset := fun _ => .ok { Errors := [] } }

/-- Round-trip fixture: one partition 1 of topic `orders`; the coordinator
reports exactly the committed pair (42, "chk1") for it. -/
def cltRoundtrip : KafkaClient :=
  { Partitions := fun _ => .ok [1]
    Leader := fun _ _ => .ok 1
    broker := fun _ =>
      { GetAvailableOffsets := fun _ =>
          .ok { GetBlock := fun _ _ => some { Err := 0, Offsets := [5] } } }
    Coordinator := fun _ => .ok coordRoundtrip }

/-- Records committed in the round-trip fixture. -/
def recordsRoundtrip : List PartitionOffset := [⟨1, 0, 0, 42, "chk1"⟩]

/-- Result the round-trip fixture's `GetGroupOffsets` produces. -/
def resRoundtrip : List PartitionOffset := [⟨1, 5, 5, 42, "chk1"⟩]

/-- Commit response reporting error code 7 for partition 1 of topic `t`
(success for partitions 0 and 2). -/
def respCommitErr : OffsetCommitResponse :=
  { Errors := [("t", [(0, 0), (1, 7), (2, 9)])] }

/-- Coordinator returning `respCommitErr` for every commit. -/
def coordCommitErr : CoordinatorModel :=
  { FetchOffset := fun _ => .ok { GetBlock := fun _ _ => none }
    CommitOffset := fun _ => .ok respCommitErr }

/-- Client whose coordinator reports commit error code 7 for partition 1 of
topic `t`. -/
def cltCommitErr : KafkaClient :=
  { Partitions := fun _ => .ok [0, 1, 2]
    Leader := fun _ _ => .ok 1
    broker := fun _ => brokerB1
    Coordinator := fun _ => .ok coordCommitErr }

/-- Result the spec §8 scenario's `GetGroupOffsets` produces. -/
def resScenario : List PartitionOffset :=
  [⟨0, 100, 150, 10, "m"⟩, ⟨1, 20, 40, 11, "m"⟩, ⟨2, 300, 350, 12, "m"⟩]

/-- Tree store with children "0" and "00" under every path, both owned by
`clientA`. -/
def zkDupNames : ZkConn :=
  { Children := fun _ => .ok ["0", "00"]
    Get := fun _ => .ok "clientA" }

/-- Tree store of the spec §8 ownership scenario:
"0" -> clientA, "1" -> clientA, "2" -> clientB under group `g1`, topic `orders`. -/
def zkOwners : ZkConn :=
  { Children := fun _ => .ok ["0", "1", "2"]
    Get := fun p =>
      if p = "/consumers/g1/owners/orders/2" then .ok "clientB" else .ok "clientA" }

/-- Tree store with no nodes at all. -/
def zkEmpty : ZkConn :=
  { Children := fun _ => .error .noNode
    Get := fun _ => .error .noNode }

/-- Tree store failing with a connectivity error. -/
def zkBroken : ZkConn :=
  { Children := fun _ => .error (.other "zk: connection closed")
    Get := fun _ => .error (.other "zk: connection closed") }

/-- Cluster-scan fixture: group `gA` is not subscribed (its ownership node
is missing) and group `gBad` hits a tree-store connectivity error. -/
def zkScan : ZkConn :=
  { Children := fun p =>
      if p = "/consumers" then .ok ["gA", "gBad"]
      else if p = "/consumers/gA/owners/t" then .error .noNode
      else .error (.other "conn")
    Get := fun _ => .error (.other "conn") }

/-! Generic list lemmas about positional writes. -/

theorem getD_set {α : Type} (arr : List α) (i j : Nat) (x d : α) :
    (arr.set i x).getD j d = if j = i ∧ j < arr.length then x else arr.getD j d := by
  induction arr generalizing i j with
  | nil => simp
  | cons a l ih =>
    cases i with
    | zero =>
      cases j with
      | zero => simp
      | succ j => simp
    | succ i =>
      cases j with
      | zero => simp
      | succ j =>
        simp only [List.set_cons_succ, List.getD_cons_succ, List.length_cons]
        rw [ih]
        by_cases h : j = i ∧ j < l.length
        · rw [if_pos h, if_pos (by omega)]
        · rw [if_neg h, if_neg (by omega)]

theorem mem_withIndexFrom (i j : Nat) (q : Int) (l : List Int)
    (h : (j, q) ∈ withIndexFrom i l) :
    i ≤ j ∧ j - i < l.length ∧ l.getD (j - i) 0 = q := by
  induction l generalizing i with
  | nil => simp [withIndexFrom] at h
  | cons p rest ih =>
    simp only [withIndexFrom, List.mem_cons] at h
    rcases h with h | h
    · injection h with h1 h2
      subst h1
      subst h2
      simp
    · obtain ⟨h1, h2, h3⟩ := ih (i + 1) h
      refine ⟨by omega, by simp [List.length_cons]; omega, ?_⟩
      have hji : j - i = (j - (i + 1)) + 1 := by omega
      rw [hji]
      simpa using h3

theorem withIndexFrom_mem (i k : Nat) (l : List Int) (hk : k < l.length) :
    (i + k, l.getD k 0) ∈ withIndexFrom i l := by
  induction l generalizing i k with
  | nil => simp at hk
  | cons p rest ih =>
    cases k with
    | zero => simp [withIndexFrom]
    | succ k =>
      simp only [withIndexFrom, List.mem_cons]
      right
      have : i + (k + 1) = (i + 1) + k := by omega
      rw [this]
      simpa using ih (i + 1) k (by simpa using Nat.lt_of_succ_lt_succ hk)

theorem mem_withIndex (j : Nat) (q : Int) (l : List Int)
    (h : (j, q) ∈ withIndex l) : j < l.length ∧ l.getD j 0 = q := by
  have := mem_withIndexFrom 0 j q l h
  simpa using this

theorem withIndex_mem (j : Nat) (l : List Int) (hj : j < l.length) :
    (j, l.getD j 0) ∈ withIndex l := by
  simpa using withIndexFrom_mem 0 j l hj

/-! Lemmas about the broker grouping. -/

theorem mem_bucketPairs (xp : IndexedPartition) (bs : List Bucket) :
    xp ∈ bucketPairs bs ↔ ∃ b ∈ bs, xp ∈ b.2 := by
  simp only [bucketPairs, List.mem_flatten, List.mem_map]
  constructor
  · rintro ⟨l, ⟨bkt, hbkt, rfl⟩, hx⟩
    exact ⟨bkt, hbkt, hx⟩
  · rintro ⟨bkt, hbkt, hx⟩
    exact ⟨bkt.2, ⟨bkt, hbkt, rfl⟩, hx⟩

theorem bucketPairs_cons (b : Int) (l : List IndexedPartition) (rest : List Bucket) :
    bucketPairs ((b, l) :: rest) = l ++ bucketPairs rest := by
  simp [bucketPairs]

theorem mem_bucketAdd (xp xp' : IndexedPartition) (b : Int) (bs : List Bucket) :
    xp' ∈ bucketPairs (bucketAdd bs b xp) ↔ xp' ∈ bucketPairs bs ∨ xp' = xp := by
  induction bs with
  | nil => simp [bucketAdd, bucketPairs]
  | cons hd rest ih =>
    obtain ⟨b', l⟩ := hd
    simp only [bucketAdd]
    by_cases hb : b' = b
    · rw [if_pos hb, bucketPairs_cons, bucketPairs_cons]
      simp only [List.mem_append, List.mem_singleton]
      tauto
    · rw [if_neg hb, bucketPairs_cons, bucketPairs_cons]
      simp only [List.mem_append]
      rw [ih]
      tauto

theorem brokerToPartitions_pairs (clt : KafkaClient) (topic : String)
    (l : List (Nat × Int)) (acc bs : List Bucket)
    (h : brokerToPartitions clt topic l acc = .ok bs) (xp : IndexedPartition) :
    xp ∈ bucketPairs bs ↔ xp ∈ bucketPairs acc ∨ (xp.index, xp.partition) ∈ l := by
  induction l generalizing acc with
  | nil =>
    simp only [brokerToPartitions] at h
    cases h
    simp
  | cons pr rest ih =>
    obtain ⟨i, p⟩ := pr
    simp only [brokerToPartitions] at h
    cases hl : clt.Leader topic p with
    | error e => rw [hl] at h; cases h
    | ok b =>
      rw [hl] at h
      rw [ih (bucketAdd acc b ⟨i, p⟩) h, mem_bucketAdd]
      constructor
      · rintro ((hx | hx) | hx)
        · exact Or.inl hx
        · subst hx; simp
        · simp [hx]
      · rintro (hx | hx)
        · exact Or.inl (Or.inl hx)
        · simp only [List.mem_cons] at hx
          rcases hx with hx | hx
          · refine Or.inl (Or.inr ?_)
            cases xp
            simpa using hx
          · exact Or.inr hx

/-! Lemmas about the broker tasks and the joined results. -/

theorem collectRangeWrites_shape (ro rn : OffsetResponse) (topic : String) (bid : Int)
    (bucket : List IndexedPartition) (ws : List RangeWrite)
    (h : collectRangeWrites ro rn topic bid bucket = .ok ws) :
    ws.map (fun w => IndexedPartition.mk w.index w.partition) = bucket := by
  induction bucket generalizing ws with
  | nil =>
    simp only [collectRangeWrites] at h
    cases h
    simp
  | cons xp rest ih =>
    simp only [collectRangeWrites] at h
    split at h
    · exact absurd h (by simp)
    · split at h
      · exact absurd h (by simp)
      · split at h
        · exact absurd h (by simp)
        · rename_i ws' heq
          cases h
          simp [ih ws' heq]

theorem runBrokerTask_shape (clt : KafkaClient) (topic : String) (bid : Int)
    (bucket : List IndexedPartition) (ws : List RangeWrite)
    (h : runBrokerTask clt topic bid bucket = .ok ws) :
    ws.map (fun w => IndexedPartition.mk w.index w.partition) = bucket := by
  simp only [runBrokerTask] at h
  split at h
  · exact absurd h (by simp)
  · split at h
    · exact absurd h (by simp)
    · exact collectRangeWrites_shape _ _ _ _ _ _ h

theorem firstErr_none_mem (rs : List (Except GoError (List RangeWrite)))
    (h : firstErr rs = none) (r : Except GoError (List RangeWrite)) (hr : r ∈ rs) :
    ∃ ws, r = .ok ws := by
  induction rs with
  | nil => simp at hr
  | cons hd rest ih =>
    cases hd with
    | error e => simp [firstErr] at h
    | ok ws =>
      simp only [firstErr] at h
      rcases List.mem_cons.mp hr with rfl | hr'
      · exact ⟨ws, rfl⟩
      · exact ih h hr'

theorem firstErr_isSome (rs : List (Except GoError (List RangeWrite))) (e : GoError)
    (h : Except.error e ∈ rs) : (firstErr rs).isSome := by
  induction rs with
  | nil => simp at h
  | cons hd rest ih =>
    cases hd with
    | error e' => simp [firstErr]
    | ok ws =>
      simp only [firstErr]
      rcases List.mem_cons.mp h with h' | h'
      · exact absurd h' (by simp)
      · exact ih h'

theorem mem_okJoin (rs : List (Except GoError (List RangeWrite))) (w : RangeWrite) :
    w ∈ okJoin rs ↔ ∃ ws, Except.ok ws ∈ rs ∧ w ∈ ws := by
  induction rs with
  | nil => simp [okJoin]
  | cons hd rest ih =>
    cases hd with
    | error e =>
      simp only [okJoin]
      rw [ih]
      constructor
      · rintro ⟨ws, h1, h2⟩
        exact ⟨ws, List.mem_cons_of_mem _ h1, h2⟩
      · rintro ⟨ws, h1, h2⟩
        rcases List.mem_cons.mp h1 with h' | h'
        · exact absurd h' (by simp)
        · exact ⟨ws, h', h2⟩
    | ok ws0 =>
      simp only [okJoin, List.mem_append]
      rw [ih]
      constructor
      · rintro (h' | ⟨ws, h1, h2⟩)
        · exact ⟨ws0, List.mem_cons_self _ _, h'⟩
        · exact ⟨ws, List.mem_cons_of_mem _ h1, h2⟩
      · rintro ⟨ws, h1, h2⟩
        rcases List.mem_cons.mp h1 with h' | h'
        · injection h' with h''
          subst h''
          exact Or.inl h2
        · exact Or.inr ⟨ws, h', h2⟩

/-! Lemmas about applying the positional writes. -/

theorem applyRangeWrites_nil (arr : List PartitionOffset) :
    applyRangeWrites arr [] = arr := rfl

theorem applyRangeWrites_cons (arr : List PartitionOffset) (w : RangeWrite)
    (rest : List RangeWrite) :
    applyRangeWrites arr (w :: rest) = applyRangeWrites (applyWrite arr w) rest := rfl

theorem applyWrite_length (arr : List PartitionOffset) (w : RangeWrite) :
    (applyWrite arr w).length = arr.length := by
  simp [applyWrite]

theorem applyRangeWrites_length (arr : List PartitionOffset) (ws : List RangeWrite) :
    (applyRangeWrites arr ws).length = arr.length := by
  induction ws generalizing arr with
  | nil => rfl
  | cons w rest ih =>
    rw [applyRangeWrites_cons, ih, applyWrite_length]

theorem applyRangeWrites_notouch (arr : List PartitionOffset) (ws : List RangeWrite)
    (i : Nat) (d : PartitionOffset) (h : ∀ w ∈ ws, w.index ≠ i) :
    (applyRangeWrites arr ws).getD i d = arr.getD i d := by
  induction ws generalizing arr with
  | nil => rfl
  | cons w rest ih =>
    rw [applyRangeWrites_cons, ih _ (fun w' hw' => h w' (List.mem_cons_of_mem _ hw'))]
    simp only [applyWrite]
    rw [getD_set, if_neg]
    intro hcontra
    exact h w (List.mem_cons_self _ _) hcontra.1.symm

theorem applyRangeWrites_partition (arr : List PartitionOffset) (ws : List RangeWrite)
    (i : Nat) (v : Int) (hlen : i < arr.length)
    (hcov : ∃ w ∈ ws, w.index = i)
    (hval : ∀ w ∈ ws, w.index = i → w.partition = v) :
    ((applyRangeWrites arr ws).getD i zeroPO).Partition = v := by
  induction ws generalizing arr with
  | nil =>
    rcases hcov with ⟨w, hw, _⟩
    simp at hw
  | cons w rest ih =>
    rw [applyRangeWrites_cons]
    by_cases hr : ∃ w' ∈ rest, w'.index = i
    · exact ih (applyWrite arr w) (by rw [applyWrite_length]; exact hlen) hr
        (fun w' hw' hwi => hval w' (List.mem_cons_of_mem _ hw') hwi)
    · have hwi : w.index = i := by
        rcases hcov with ⟨w', hw', hwi'⟩
        rcases List.mem_cons.mp hw' with rfl | hmem
        · exact hwi'
        · exact absurd ⟨w', hmem, hwi'⟩ hr
      have hnot : ∀ w' ∈ rest, w'.index ≠ i := by
        intro w' hw' hcontra
        exact hr ⟨w', hw', hcontra⟩
      rw [applyRangeWrites_notouch _ _ _ _ hnot]
      simp only [applyWrite]
      rw [getD_set, if_pos ⟨hwi.symm, hlen⟩]
      simpa using hval w (List.mem_cons_self _ _) hwi

/-! Lemmas about the offset-range phase. -/

theorem rangePhase_ok (iter : List Bucket → List Bucket) (clt : KafkaClient)
    (topic : String) (parts : List Int) (offs : List PartitionOffset)
    (h : rangePhase iter clt topic parts = .ok offs) :
    ∃ buckets, brokerToPartitions clt topic (withIndex parts) [] = .ok buckets ∧
      firstErr ((iter buckets).map (fun b => runBrokerTask clt topic b.1 b.2)) = none ∧
      offs = applyRangeWrites (List.replicate parts.length zeroPO)
        (okJoin ((iter buckets).map (fun b => runBrokerTask clt topic b.1 b.2))) := by
  simp only [rangePhase] at h
  split at h
  · exact absurd h (by simp)
  · rename_i buckets hb
    split at h
    · exact absurd h (by simp)
    · rename_i hfe
      cases h
      exact ⟨buckets, hb, hfe, rfl⟩

theorem rangePhase_ok_length (iter : List Bucket → List Bucket) (clt : KafkaClient)
    (topic : String) (parts : List Int) (offs : List PartitionOffset)
    (h : rangePhase iter clt topic parts = .ok offs) : offs.length = parts.length := by
  obtain ⟨buckets, hb, hfe, rfl⟩ := rangePhase_ok iter clt topic parts offs h
  rw [applyRangeWrites_length]
  simp

theorem rangePhase_ok_partition (iter : List Bucket → List Bucket)
    (hperm : ∀ bs, List.Perm (iter bs) bs)
    (clt : KafkaClient) (topic : String) (parts : List Int) (offs : List PartitionOffset)
    (h : rangePhase iter clt topic parts = .ok offs) :
    ∀ i < parts.length, (offs.getD i zeroPO).Partition = parts.getD i 0 := by
  obtain ⟨buckets, hb, hfe, rfl⟩ := rangePhase_ok iter clt topic parts offs h
  intro i hi
  have hpair_iff : ∀ xp : IndexedPartition,
      xp ∈ bucketPairs buckets ↔ (xp.index, xp.partition) ∈ withIndex parts := by
    intro xp
    have := brokerToPartitions_pairs clt topic (withIndex parts) [] buckets hb xp
    simpa [bucketPairs] using this
  have hcov : ∃ w ∈ okJoin ((iter buckets).map (fun b => runBrokerTask clt topic b.1 b.2)),
      w.index = i := by
    have hmem : (⟨i, parts.getD i 0⟩ : IndexedPartition) ∈ bucketPairs buckets :=
      (hpair_iff _).mpr (by simpa using withIndex_mem i parts hi)
    obtain ⟨b, hbmem, hxp⟩ := (mem_bucketPairs _ _).mp hmem
    have hbmem' : b ∈ iter buckets := ((hperm buckets).mem_iff).mpr hbmem
    have hr : runBrokerTask clt topic b.1 b.2 ∈
        (iter buckets).map (fun b => runBrokerTask clt topic b.1 b.2) :=
      List.mem_map_of_mem _ hbmem'
    obtain ⟨ws, hws⟩ := firstErr_none_mem _ hfe _ hr
    have hshape := runBrokerTask_shape clt topic b.1 b.2 ws hws
    rw [← hshape] at hxp
    obtain ⟨w, hwmem, hweq⟩ := List.mem_map.mp hxp
    refine ⟨w, ?_, ?_⟩
    · exact (mem_okJoin _ w).mpr ⟨ws, by rw [← hws]; exact hr, hwmem⟩
    · exact congrArg IndexedPartition.index hweq
  have hval : ∀ w ∈ okJoin ((iter buckets).map (fun b => runBrokerTask clt topic b.1 b.2)),
      w.index = i → w.partition = parts.getD i 0 := by
    intro w hw hwi
    obtain ⟨ws, hok, hwmem⟩ := (mem_okJoin _ w).mp hw
    obtain ⟨b, hbmem', hbeq⟩ := List.mem_map.mp hok
    have hshape := runBrokerTask_shape clt topic b.1 b.2 ws hbeq
    have hxp : (⟨w.index, w.partition⟩ : IndexedPartition) ∈ b.2 := by
      rw [← hshape]
      exact List.mem_map_of_mem _ hwmem
    have hxp2 : (⟨w.index, w.partition⟩ : IndexedPartition) ∈ bucketPairs buckets :=
      (mem_bucketPairs _ _).mpr ⟨b, ((hperm buckets).mem_iff).mp hbmem', hxp⟩
    obtain ⟨_, hgd⟩ := mem_withIndex _ _ _ ((hpair_iff _).mp hxp2)
    rw [hwi] at hgd
    exact hgd.symm
  exact applyRangeWrites_partition _ _ i (parts.getD i 0) (by simpa using hi) hcov hval

theorem rangePhase_error_of_task (iter : List Bucket → List Bucket) (clt : KafkaClient)
    (topic : String) (parts : List Int) (buckets : List Bucket) (b : Bucket) (e : GoError)
    (hb : brokerToPartitions clt topic (withIndex parts) [] = .ok buckets)
    (hmem : b ∈ iter buckets)
    (htask : runBrokerTask clt topic b.1 b.2 = .error e) :
    ∃ e', rangePhase iter clt topic parts = .error e' := by
  simp only [rangePhase, hb]
  cases hfe : firstErr ((iter buckets).map (fun b => runBrokerTask clt topic b.1 b.2)) with
  | some e' => exact ⟨e', rfl⟩
  | none =>
    exfalso
    have hr : Except.error e ∈ (iter buckets).map (fun b => runBrokerTask clt topic b.1 b.2) := by
      rw [← htask]
      exact List.mem_map_of_mem _ hmem
    obtain ⟨ws, hws⟩ := firstErr_none_mem _ hfe _ hr
    exact absurd hws (by simp)

/-! Lemmas about filling in the committed offsets. -/

theorem fillCommitted_partition (res : OffsetFetchResponse) (topic : String)
    (l : List (Nat × Int)) (arr out : List PartitionOffset) (oe : Option GoError)
    (h : fillCommitted res topic l arr = (some out, oe)) :
    out.length = arr.length ∧
    ∀ i, (out.getD i zeroPO).Partition = (arr.getD i zeroPO).Partition := by
  induction l generalizing arr with
  | nil =>
    simp only [fillCommitted, Prod.mk.injEq, Option.some.injEq] at h
    obtain ⟨rfl, rfl⟩ := h
    exact ⟨rfl, fun _ => rfl⟩
  | cons pr rest ih =>
    obtain ⟨i, p⟩ := pr
    simp only [fillCommitted] at h
    split at h
    · exact absurd h (by simp)
    · obtain ⟨hl, hp⟩ := ih _ h
      constructor
      · rw [hl]
        simp
      · intro j
        rw [hp j, getD_set]
        by_cases hc : j = i ∧ j < arr.length
        · rw [if_pos hc]
          obtain ⟨rfl, _⟩ := hc
          simp
        · rw [if_neg hc]

theorem fillCommitted_preserve (res : OffsetFetchResponse) (topic : String)
    (l : List (Nat × Int)) (arr out : List PartitionOffset) (oe : Option GoError) (i : Nat)
    (hni : ∀ pr ∈ l, pr.1 ≠ i)
    (h : fillCommitted res topic l arr = (some out, oe)) :
    out.getD i zeroPO = arr.getD i zeroPO := by
  induction l generalizing arr with
  | nil =>
    simp only [fillCommitted, Prod.mk.injEq, Option.some.injEq] at h
    obtain ⟨rfl, rfl⟩ := h
    rfl
  | cons pr rest ih =>
    obtain ⟨j, p⟩ := pr
    simp only [fillCommitted] at h
    split at h
    · exact absurd h (by simp)
    · rw [ih _ (fun pr hpr => hni pr (List.mem_cons_of_mem _ hpr)) h, getD_set, if_neg]
      intro hcontra
      exact hni (j, p) (List.mem_cons_self _ _) hcontra.1.symm

theorem fillCommitted_spec (res : OffsetFetchResponse) (topic : String)
    (l : List Int) (k : Nat) (arr out : List PartitionOffset) (oe : Option GoError)
    (h : fillCommitted res topic (withIndexFrom k l) arr = (some out, oe)) :
    ∀ j, j < l.length → k + j < arr.length →
      ∃ b, res.GetBlock topic (l.getD j 0) = some b ∧
        (out.getD (k + j) zeroPO).Offset = b.Offset ∧
        (out.getD (k + j) zeroPO).Metadata = b.Metadata := by
  induction l generalizing k arr with
  | nil =>
    intro j hj
    simp at hj
  | cons p rest ih =>
    intro j hj hlen
    simp only [withIndexFrom, fillCommitted] at h
    split at h
    · exact absurd h (by simp)
    · rename_i block hblock
      cases j with
      | zero =>
        have hni : ∀ pr ∈ withIndexFrom (k + 1) rest, pr.1 ≠ k := by
          rintro ⟨j0, q⟩ hpr
          have := mem_withIndexFrom (k + 1) j0 q rest hpr
          simp only []
          omega
        have hpres := fillCommitted_preserve res topic _ _ _ _ k hni h
        rw [Nat.add_zero] at hlen ⊢
        refine ⟨block, by simpa using hblock, ?_, ?_⟩
        · rw [hpres, getD_set, if_pos ⟨rfl, by simpa using hlen⟩]
        · rw [hpres, getD_set, if_pos ⟨rfl, by simpa using hlen⟩]
      | succ j' =>
        have hj' : j' < rest.length := by
          simpa using Nat.lt_of_succ_lt_succ hj
        obtain ⟨b, h1, h2, h3⟩ :=
          ih (k + 1) _ h j' hj' (by simp only [List.length_set]; omega)
        have hk : (k + 1) + j' = k + (j' + 1) := by omega
        rw [hk] at h2 h3
        exact ⟨b, by simpa using h1, h2, h3⟩

/-! Claim theorems about `GetGroupOffsets` and `SetGroupOffsets`. -/

/-- C1: for every topic, `GetGroupOffsets` returns an array whose length
equals the number of partitions returned by the partition-list discovery
call, and for every index i the i-th element's Partition field equals the
i-th partition of that discovered list, regardless of how partitions are
distributed among brokers (the `Leader` assignment is arbitrary) or in
which order the per-broker tasks complete (`iter` is an arbitrary
permutation of the broker buckets). -/
theorem C1_getGroupOffsets_positional (iter : List Bucket → List Bucket)
    (hperm : ∀ bs, List.Perm (iter bs) bs)
    (clt : KafkaClient) (group topic : String) (parts : List Int)
    (res : List PartitionOffset) (oe : Option GoError)
    (hparts : clt.Partitions topic = .ok parts)
    (hres : GetGroupOffsets iter clt group topic = (some res, oe)) :
    res.length = parts.length ∧
    ∀ i < parts.length, (res.getD i zeroPO).Partition = parts.getD i 0 := by
  simp only [GetGroupOffsets, hparts] at hres
  split at hres
  · exact absurd hres (by simp)
  · rename_i offs hrange
    simp only [committedPhase] at hres
    split at hres
    · exact absurd hres (by simp)
    · split at hres
      · exact absurd hres (by simp)
      · rename_i fres hfres
        obtain ⟨hlenf, hpartf⟩ := fillCommitted_partition fres topic _ offs res oe hres
        have hlenr := rangePhase_ok_length iter clt topic parts offs hrange
        constructor
        · rw [hlenf, hlenr]
        · intro i hi
          rw [hpartf i]
          exact rangePhase_ok_partition iter hperm clt topic parts offs hrange i hi

/-- Witness for C1 at the spec §8 scenario: partitions [0, 1, 2], brokers
{1 ↦ [0, 2], 2 ↦ [1]}. -/
theorem C1_getGroupOffsets_positional_witness :
    resScenario.length = 3 ∧ (resScenario.getD 1 zeroPO).Partition = 1 := by
  have h := C1_getGroupOffsets_positional id (fun bs => List.Perm.refl bs)
    cltScenario "g1" "orders" [0, 1, 2] resScenario none rfl rfl
  exact ⟨h.1, h.2 1 (by decide)⟩

/-- C2 (code bug): the claim states that a committed-offset fetch response
lacking a block for a requested partition makes the operation fail with a
protocol error.  The code instead executes
`return nil, errors.Wrapf(nil, "offset block is missing, ...")`, and
`errors.Wrapf` of github.com/pkg/errors returns nil for a nil cause, so the
caller receives a nil slice and a nil error: a silent success.  This
theorem evaluates the embedded code at such an input. -/
theorem C2_missingBlock_silent_nil :
    GetGroupOffsets id cltMissingBlock "g" "t" = (none, none) := rfl

/-- C4: if any single broker's offset-range task fails, the whole
`GetGroupOffsets` call returns a nil result and a non-nil error, no matter
what every other broker returned. -/
theorem C4_brokerFailure_failsWhole (iter : List Bucket → List Bucket)
    (clt : KafkaClient) (group topic : String) (parts : List Int)
    (buckets : List Bucket) (b : Bucket) (e : GoError)
    (hparts : clt.Partitions topic = .ok parts)
    (hb : brokerToPartitions clt topic (withIndex parts) [] = .ok buckets)
    (hmem : b ∈ iter buckets)
    (htask : runBrokerTask clt topic b.1 b.2 = .error e) :
    (GetGroupOffsets iter clt group topic).1 = none ∧
    ((GetGroupOffsets iter clt group topic).2).isSome := by
  obtain ⟨e', he'⟩ := rangePhase_error_of_task iter clt topic parts buckets b e hb hmem htask
  simp [GetGroupOffsets, hparts, he']

/-- Witness for C4: broker 2 (leader of partition 1) is down while broker 1
answers; the whole call still fails with nil result. -/
theorem C4_brokerFailure_failsWhole_witness :
    (GetGroupOffsets id cltBroker2Down "g1" "orders").1 = none ∧
    ((GetGroupOffsets id cltBroker2Down "g1" "orders").2).isSome :=
  C4_brokerFailure_failsWhole id cltBroker2Down "g1" "orders" [0, 1, 2]
    [(1, [⟨0, 0⟩, ⟨2, 2⟩]), (2, [⟨1, 1⟩])] (2, [⟨1, 1⟩])
    (.wrap "failed to fetch oldest offset, broker=2" (.errorf "connection refused"))
    rfl rfl (by decide) rfl

theorem firstNonZero_prefix_zero (pre post : List (Int × Int)) (p e : Int)
    (hpre : ∀ q ∈ pre, q.2 = ErrNoError) (he : e ≠ ErrNoError) :
    firstNonZero (pre ++ (p, e) :: post) =
      some (.wrap ("failed to commit offset, partition=" ++ toString p) (.kerror e)) := by
  induction pre with
  | nil => simp [firstNonZero, he]
  | cons q rest ih =>
    obtain ⟨pq, qe⟩ := q
    have hq : qe = ErrNoError := hpre (pq, qe) (List.mem_cons_self _ _)
    simp only [List.cons_append, firstNonZero]
    rw [if_neg (by simp [hq])]
    exact ih (fun q hq' => hpre q (List.mem_cons_of_mem _ hq'))

theorem firstNonZero_all_zero (l : List (Int × Int))
    (h : ∀ q ∈ l, q.2 = ErrNoError) : firstNonZero l = none := by
  induction l with
  | nil => rfl
  | cons q rest ih =>
    obtain ⟨pq, qe⟩ := q
    have hq : qe = ErrNoError := h (pq, qe) (List.mem_cons_self _ _)
    simp only [firstNonZero]
    rw [if_neg (by simp [hq])]
    exact ih (fun q hq' => h q (List.mem_cons_of_mem _ hq'))

/-- C5: after a successful coordinator round-trip in `SetGroupOffsets`, the
first partition in the response's per-partition error list whose code is
non-success determines the returned error, independently of every entry
after it; if every code is success the operation returns no error. -/
theorem C5_firstCommitError_aborts (clt : KafkaClient) (group topic : String)
    (records : List PartitionOffset) (coord : CoordinatorModel)
    (res : OffsetCommitResponse)
    (hcoord : clt.Coordinator group = .ok coord)
    (hcommit : coord.CommitOffset (buildCommitRequest group topic records) = .ok res) :
    (∀ pre post p e, lookupErrors res.Errors topic = pre ++ (p, e) :: post →
      (∀ q ∈ pre, q.2 = ErrNoError) → e ≠ ErrNoError →
      SetGroupOffsets clt group topic records =
        some (.wrap ("failed to commit offset, partition=" ++ toString p) (.kerror e))) ∧
    ((∀ q ∈ lookupErrors res.Errors topic, q.2 = ErrNoError) →
      SetGroupOffsets clt group topic records = none) := by
  have hset : SetGroupOffsets clt group topic records =
      firstNonZero (lookupErrors res.Errors topic) := by
    simp [SetGroupOffsets, hcoord, hcommit]
  constructor
  · intro pre post p e hsplit hpre he
    rw [hset, hsplit]
    exact firstNonZero_prefix_zero pre post p e hpre he
  · intro hall
    rw [hset]
    exact firstNonZero_all_zero _ hall

/-- Witness for C5: error list [(0, 0), (1, 7), (2, 9)] makes the call
fail with partition 1's code 7, never reaching partition 2's entry. -/
theorem C5_firstCommitError_aborts_witness :
    SetGroupOffsets cltCommitErr "g" "t" [] =
      some (.wrap ("failed to commit offset, partition=" ++ toString (1 : Int))
        (.kerror 7)) := by
  have h := C5_firstCommitError_aborts cltCommitErr "g" "t" [] coordCommitErr
    respCommitErr rfl rfl
  exact h.1 [(0, 0)] [(2, 9)] 1 7 rfl (by decide) (by decide)

/-- C8: round-trip.  After a successful `SetGroupOffsets`, if the
coordinator durably stores what was committed (its fetch response carries,
for every block of the commit request, exactly that block's offset and
metadata), then a subsequent successful `GetGroupOffsets` returns, for
every discovered partition present in `records`, the committed offset and
metadata. -/
theorem C8_roundtrip (iter : List Bucket → List Bucket) (clt cltAfter : KafkaClient)
    (group topic : String) (records : List PartitionOffset) (parts : List Int)
    (coord : CoordinatorModel) (fres : OffsetFetchResponse)
    (res : List PartitionOffset) (oe : Option GoError)
    (hset : SetGroupOffsets clt group topic records = none)
    (hparts : cltAfter.Partitions topic = .ok parts)
    (hcoord : cltAfter.Coordinator group = .ok coord)
    (hfetch : coord.FetchOffset
      { ConsumerGroup := group, Version := ProtocolVer1,
        partitions := parts.map (fun p => (topic, p)) } = .ok fres)
    (hdurable : ∀ blk ∈ (buildCommitRequest group topic records).blocks,
      ∃ fb, fres.GetBlock topic blk.partition = some fb ∧
        fb.Offset = blk.offset ∧ fb.Metadata = blk.metadata)
    (hget : GetGroupOffsets iter cltAfter group topic = (some res, oe)) :
    ∀ i < parts.length, ∀ r ∈ records, r.Partition = parts.getD i 0 →
      (res.getD i zeroPO).Offset = r.Offset ∧
      (res.getD i zeroPO).Metadata = r.Metadata := by
  intro i hi r hr hrp
  simp only [GetGroupOffsets, hparts] at hget
  split at hget
  · exact absurd hget (by simp)
  · rename_i offs hrange
    simp only [committedPhase, hcoord, hfetch] at hget
    have hlen := rangePhase_ok_length iter cltAfter topic parts offs hrange
    have hfill := fillCommitted_spec fres topic parts 0 offs res oe hget
    obtain ⟨b, hb, ho, hm⟩ := hfill i hi (by omega)
    rw [Nat.zero_add] at ho hm
    obtain ⟨fb, hfb, hfo, hfm⟩ := hdurable _ (List.mem_map_of_mem _ hr)
    rw [hrp] at hfb
    rw [hb] at hfb
    injection hfb with hbf
    subst hbf
    exact ⟨ho.trans hfo, hm.trans hfm⟩

/-- Witness for C8 at the spec §8 commit scenario: offset 42, metadata
"chk1" for partition 1 of `orders` under group `g1`. -/
theorem C8_roundtrip_witness :
    (resRoundtrip.getD 0 zeroPO).Offset = 42 ∧
    (resRoundtrip.getD 0 zeroPO).Metadata = "chk1" := by
  have h := C8_roundtrip id cltRoundtrip cltRoundtrip "g1" "orders" recordsRoundtrip [1]
    coordRoundtrip fresRoundtrip resRoundtrip none rfl rfl rfl rfl
    (by
      intro blk hblk
      simp only [buildCommitRequest, recordsRoundtrip, List.map_cons, List.map_nil,
        List.mem_singleton] at hblk
      subst hblk
      exact ⟨{ Offset := 42, Metadata := "chk1", Err := 0 }, rfl, rfl, rfl⟩)
    rfl
  exact h 0 (by decide) ⟨1, 0, 0, 42, "chk1"⟩ (by simp [recordsRoundtrip]) rfl

/-- C9: `SetGroupOffsets` depends only on the Partition, Offset and
Metadata fields of its input records: two record lists agreeing on those
three fields produce the same commit request and the same result, whatever
their Begin and End fields are. -/
theorem C9_beginEnd_ignored (clt : KafkaClient) (group topic : String)
    (r1 r2 : List PartitionOffset)
    (hagree : r1.map (fun r => (r.Partition, r.Offset, r.Metadata)) =
              r2.map (fun r => (r.Partition, r.Offset, r.Metadata))) :
    buildCommitRequest group topic r1 = buildCommitRequest group topic r2 ∧
    SetGroupOffsets clt group topic r1 = SetGroupOffsets clt group topic r2 := by
  have hreq : buildCommitRequest group topic r1 = buildCommitRequest group topic r2 := by
    have h1 : ∀ l : List PartitionOffset,
        l.map (fun po => CommitBlock.mk topic po.Partition po.Offset ReceiveTime po.Metadata) =
        (l.map (fun r => (r.Partition, r.Offset, r.Metadata))).map
          (fun t => CommitBlock.mk topic t.1 t.2.1 ReceiveTime t.2.2) := by
      intro l
      rw [List.map_map]
      rfl
    simp only [buildCommitRequest]
    rw [h1 r1, h1 r2, hagree]
  refine ⟨hreq, ?_⟩
  simp only [SetGroupOffsets, hreq]

/-- Witness for C9: records differing only in Begin/End commit identically. -/
theorem C9_beginEnd_ignored_witness :
    buildCommitRequest "g" "t" [⟨0, 1, 2, 42, "m"⟩] =
      buildCommitRequest "g" "t" [⟨0, 99, 77, 42, "m"⟩] ∧
    SetGroupOffsets cltScenario "g" "t" [⟨0, 1, 2, 42, "m"⟩] =
      SetGroupOffsets cltScenario "g" "t" [⟨0, 99, 77, 42, "m"⟩] :=
  C9_beginEnd_ignored cltScenario "g" "t" _ _ rfl

/-! Lemmas about the ownership scanner. -/

theorem assocAppend_nonempty (m : List (String × List Int)) (k : String) (v : Int)
    (h : ∀ kv ∈ m, kv.2 ≠ []) : ∀ kv ∈ assocAppend m k v, kv.2 ≠ [] := by
  induction m with
  | nil =>
    intro kv hkv
    simp only [assocAppend, List.mem_singleton] at hkv
    subst hkv
    simp
  | cons hd rest ih =>
    obtain ⟨k', vs⟩ := hd
    intro kv hkv
    simp only [assocAppend] at hkv
    by_cases hk : k' = k
    · rw [if_pos hk] at hkv
      rcases List.mem_cons.mp hkv with rfl | hmem
      · simp
      · exact h kv (List.mem_cons_of_mem _ hmem)
    · rw [if_neg hk] at hkv
      rcases List.mem_cons.mp hkv with rfl | hmem
      · exact h (k', vs) (List.mem_cons_self _ _)
      · exact ih (fun kv' h' => h kv' (List.mem_cons_of_mem _ h')) kv hmem

theorem readOwners_nonempty (zkConn : ZkConn) (basePath : String) (nodes : List String)
    (acc out : List (String × List Int))
    (hacc : ∀ kv ∈ acc, kv.2 ≠ [])
    (h : readOwners zkConn basePath nodes acc = .ok out) :
    ∀ kv ∈ out, kv.2 ≠ [] := by
  induction nodes generalizing acc with
  | nil =>
    simp only [readOwners] at h
    cases h
    exact hacc
  | cons n rest ih =>
    simp only [readOwners] at h
    split at h
    · exact absurd h (by simp)
    · split at h
      · exact absurd h (by simp)
      · exact ih _ (assocAppend_nonempty acc _ _ hacc) h

theorem assocAppend_vals (m : List (String × List Int)) (k : String) (v : Int) :
    List.Perm (valsOf (assocAppend m k v)) (valsOf m ++ [v]) := by
  induction m with
  | nil =>
    simp only [assocAppend, valsOf, List.map_cons, List.map_nil, List.flatten_cons,
      List.flatten_nil, List.append_nil, List.nil_append]
    exact List.Perm.refl _
  | cons hd rest ih =>
    obtain ⟨k', vs⟩ := hd
    simp only [assocAppend]
    by_cases hk : k' = k
    · rw [if_pos hk]
      simp only [valsOf, List.map_cons, List.flatten_cons]
      rw [List.append_assoc, List.append_assoc]
      exact List.Perm.append_left vs (List.perm_append_comm)
    · rw [if_neg hk]
      simp only [valsOf, List.map_cons, List.flatten_cons] at ih ⊢
      rw [List.append_assoc]
      exact List.Perm.append_left vs ih

theorem readOwners_vals (zkConn : ZkConn) (basePath : String) (nodes : List String)
    (acc out : List (String × List Int))
    (h : readOwners zkConn basePath nodes acc = .ok out) :
    List.Perm (valsOf out) (valsOf acc ++ nodes.filterMap parsedId) := by
  induction nodes generalizing acc with
  | nil =>
    simp only [readOwners] at h
    cases h
    simp only [List.filterMap_nil, List.append_nil]
    exact List.Perm.refl _
  | cons n rest ih =>
    simp only [readOwners] at h
    split at h
    · exact absurd h (by simp)
    · rename_i v hv
      split at h
      · exact absurd h (by simp)
      · rename_i s hs
        have hmain := ih _ h
        have hfm : (n :: rest).filterMap parsedId =
            toInt32 v :: rest.filterMap parsedId := by
          simp [List.filterMap_cons, parsedId, hv]
        rw [hfm]
        refine hmain.trans ?_
        refine ((assocAppend_vals acc s (toInt32 v)).append_right _).trans ?_
        rw [List.append_assoc]
        exact List.Perm.refl _

theorem valsOf_nodup (m : List (String × List Int)) (h : (valsOf m).Nodup) :
    ∀ kv ∈ m, kv.2.Nodup := by
  induction m with
  | nil => simp
  | cons hd rest ih =>
    simp only [valsOf, List.map_cons, List.flatten_cons] at h
    intro kv hkv
    rcases List.mem_cons.mp hkv with rfl | hmem
    · exact (List.nodup_append.mp h).1
    · exact ih (List.nodup_append.mp h).2.1 kv hmem

theorem sorted_le_nodup_lt (l : List Int) (hs : List.Sorted (fun a b => a ≤ b) l)
    (hn : l.Nodup) : List.Sorted (fun a b => a < b) l := by
  induction l with
  | nil => exact List.sorted_nil
  | cons a rest ih =>
    rw [List.sorted_cons] at hs ⊢
    rw [List.nodup_cons] at hn
    refine ⟨?_, ih hs.2 hn.2⟩
    intro b hb
    exact lt_of_le_of_ne (hs.1 b hb) (fun heq => hn.1 (heq ▸ hb))

theorem sortInts_sorted (l : List Int) :
    List.Sorted (fun a b => a ≤ b) (sortInts l) :=
  List.sorted_insertionSort _ l

theorem sortInts_perm (l : List Int) : List.Perm (sortInts l) l :=
  List.perm_insertionSort _ l

/-! Claim theorems about the ownership scanner. -/

/-- C3 (code bug): the claim says a per-group scan failing with the
NotFound kind is swallowed while any other error kind aborts the entire
cluster-wide scan with that error.  The code's kind test is the type
assertion `err.(ErrInvalidParam)`, and `ErrInvalidParam` is a defined
interface type, so the assertion succeeds for every non-nil error: every
failed scan is swallowed and the abort branch is dead code.  At the
fixture, group `gA` is not subscribed (NotFound by intent) and group
`gBad` fails with a tree-store connectivity error (non-NotFound by
intent); the scan nevertheless succeeds with an empty map instead of
aborting with `gBad`'s error. -/
theorem C3_every_scan_error_swallowed :
    GetAllTopicConsumers zkScan "" "t" = .ok [] := rfl

/-- C6 (code bug): the claim says the missing-ownership-node error is a
NotFound-kind error distinguishable from every other error kind, and that
other tree-store errors are fatal non-NotFound errors.  The
`ErrInvalidParam(...)` conversion at admin.go line 211 is an
interface-to-interface conversion that leaves no runtime tag, and the
program's only kind test, the `err.(ErrInvalidParam)` assertion, succeeds
for every non-nil error: it classifies the fatal connectivity error
exactly like the no-node error, so the code provides no kind
distinction. -/
theorem C6_noNode_not_distinguishable :
    GetTopicConsumers zkEmpty "" "g" "t" =
      .error (toErrInvalidParam (.errorf "either group or topic is incorrect")) ∧
    GetTopicConsumers zkBroken "" "g" "t" =
      .error (.wrap "failed to fetch partition owners data"
        (.zk (.other "zk: connection closed"))) ∧
    errIsErrInvalidParam
        (toErrInvalidParam (.errorf "either group or topic is incorrect")) =
      errIsErrInvalidParam
        (.wrap "failed to fetch partition owners data"
          (.zk (.other "zk: connection closed"))) :=
  ⟨rfl, rfl, rfl⟩

/-- C7 counterexample: the claim says every client's partition list is
strictly ascending with no duplicates for any set of child node names.
The child names "0" and "00" are distinct but both parse to partition 0,
so a successful result maps clientA to [0, 0]: not strictly ascending and
containing a duplicate. -/
theorem C7_strictAscending_counterexample :
    GetTopicConsumers zkDupNames "" "g" "t" = .ok [("clientA", [0, 0])] ∧
    ¬ List.Sorted (fun a b => a < b) ([0, 0] : List Int) ∧
    ¬ List.Nodup ([0, 0] : List Int) := by
  refine ⟨rfl, ?_, ?_⟩
  · intro h
    have h0 := (List.pairwise_cons.mp h).1 0 (List.mem_cons_self _ _)
    exact absurd h0 (by decide)
  · intro h
    have h0 := (List.pairwise_cons.mp h).1 0 (List.mem_cons_self _ _)
    exact h0 rfl

/-- C7 (amended): for every successful `GetTopicConsumers` result and every
client in it, the client's partition list is sorted in non-decreasing
order; it is strictly ascending with no duplicates whenever the partition
ids parsed from the child node names are pairwise distinct (distinct names
such as "0" and "00" can parse to the same id and then produce duplicates). -/
theorem C7_amended_sorted (zkConn : ZkConn) (chroot group topic : String)
    (m : List (String × List Int))
    (hok : GetTopicConsumers zkConn chroot group topic = .ok m) :
    (∀ kv ∈ m, List.Sorted (fun a b => a ≤ b) kv.2) ∧
    (∀ nodes, zkConn.Children (consumedPartitionsPath chroot group topic) = .ok nodes →
      (nodes.filterMap parsedId).Nodup →
      ∀ kv ∈ m, List.Sorted (fun a b => a < b) kv.2) := by
  simp only [GetTopicConsumers] at hok
  split at hok
  · exact absurd hok (by simp)
  · exact absurd hok (by simp)
  · rename_i nodes0 hnodes0
    split at hok
    · exact absurd hok (by simp)
    · rename_i consumers hcons
      cases hok
      constructor
      · intro kv hkv
        obtain ⟨kv0, hkv0, rfl⟩ := List.mem_map.mp hkv
        exact sortInts_sorted kv0.2
      · intro nodes hnodes hnd kv hkv
        rw [hnodes0] at hnodes
        injection hnodes with hne
        subst hne
        obtain ⟨kv0, hkv0, rfl⟩ := List.mem_map.mp hkv
        have hv := readOwners_vals zkConn _ nodes0 [] consumers hcons
        have hvn : (valsOf consumers).Nodup := by
          refine (hv.nodup_iff).mpr ?_
          simpa [valsOf] using hnd
        have hkvn := valsOf_nodup consumers hvn kv0 hkv0
        have hsortn : (sortInts kv0.2).Nodup := ((sortInts_perm kv0.2).nodup_iff).mpr hkvn
        exact sorted_le_nodup_lt _ (sortInts_sorted kv0.2) hsortn

/-- Witness for C7 (amended) at the spec §8 ownership scenario. -/
theorem C7_amended_sorted_witness :
    List.Sorted (fun a b => a ≤ b) ([0, 1] : List Int) ∧
    List.Sorted (fun a b => a < b) ([2] : List Int) := by
  have h := C7_amended_sorted zkOwners "" "g1" "orders"
    [("clientA", [0, 1]), ("clientB", [2])] rfl
  refine ⟨h.1 ("clientA", [0, 1]) (by simp), ?_⟩
  exact h.2 ["0", "1", "2"] rfl (by decide) ("clientB", [2]) (by simp)

/-- C10: a successful `GetTopicConsumers` result never maps a client id to
an empty partition list. -/
theorem C10_no_empty_partition_lists (zkConn : ZkConn) (chroot group topic : String)
    (m : List (String × List Int))
    (hok : GetTopicConsumers zkConn chroot group topic = .ok m) :
    ∀ kv ∈ m, kv.2 ≠ [] := by
  simp only [GetTopicConsumers] at hok
  split at hok
  · exact absurd hok (by simp)
  · exact absurd hok (by simp)
  · rename_i nodes hnodes
    split at hok
    · exact absurd hok (by simp)
    · rename_i consumers hcons
      cases hok
      intro kv hkv
      obtain ⟨kv0, hkv0, rfl⟩ := List.mem_map.mp hkv
      have hne := readOwners_nonempty zkConn _ nodes [] consumers (by simp) hcons kv0 hkv0
      intro hcontra
      apply hne
      have hperm := sortInts_perm kv0.2
      simp only at hcontra
      rw [hcontra] at hperm
      exact hperm.symm.eq_nil

/-- Witness for C10 at the spec §8 ownership scenario. -/
theorem C10_no_empty_partition_lists_witness :
    (([0, 1] : List Int) ≠ []) ∧ (([2] : List Int) ≠ []) := by
  have h := C10_no_empty_partition_lists zkOwners "" "g1" "orders"
    [("clientA", [0, 1]), ("clientB", [2])] rfl
  exact ⟨h ("clientA", [0, 1]) (by simp), h ("clientB", [2]) (by simp)⟩

end KafkaPixyAdmin

